import Mathlib

/-!
Verification of the frontend-nanodegree-arcade-game game logic
(`js/app.js` and the second engine revision of the same classes).

JavaScript strings are modelled as `List Char`; JS numbers holding grid
coordinates, counters and speed bounds are modelled as `Int`; the
continuously moving enemy abscissa and enemy speeds (which are divided
by 3 by the blue gem) are modelled as `ℚ`.  `Math.random()` is modelled
as an oracle stream of rationals in `[0, 1)`.  `setTimeout` callbacks do
not run synchronously; their deferred bodies are modelled as separate
functions on the game state (`blueGemReversalApp`, `blueGemReversalRev`).
-/

/-- JS `s.charAt(i)`: the character at index `i`, or `none` standing for
the empty string returned on an out-of-range or negative index. -/
def charAt (s : List Char) (i : Int) : Option Char :=
  if 0 ≤ i then s.get? i.toNat else none

/-- JS `s.substring(0, i) + c + s.substring(i + 1)` for a single
character `c`: JS `substring` clamps negative arguments to `0` and
arguments past the end to the length, which `Int.toNat`, `take` and
`drop` reproduce. -/
def stringSetAt (s : List Char) (i : Int) (c : Char) : List Char :=
  s.take i.toNat ++ [c] ++ s.drop (i + 1).toNat

/-- JS `s.split(sep)` for a one-character separator. -/
def splitOnChar (sep : Char) : List Char → List (List Char)
  | [] => [[]]
  | c :: rest =>
    match splitOnChar sep rest with
    | [] => [[c]]
    | h :: t => if c = sep then [] :: h :: t else (c :: h) :: t

/-- JS `parseInt` restricted to the digit-only tokens appearing in this
repository's level descriptors (it reads the leading run of decimal
digits; the `NaN` result on a digit-free token, unreachable for the
levels of this game, is modelled as `0`). -/
def jsParseInt (s : List Char) : Int :=
  ((s.takeWhile Char.isDigit).foldl (fun a c => a * 10 + ((c.toNat : Int) - 48)) 0)

/-- JS array indexing `l[i]` with an `Int` index, with a default for the
out-of-range accesses that would yield `undefined`. -/
def intGetD (l : List α) (i : Int) (d : α) : α :=
  if 0 ≤ i then l.getD i.toNat d else d

/-- Models `Game.prototype.randomInt`: `Math.floor(Math.random() * (max - min + 1)) + min`
where `r` is the value drawn from `Math.random()`.  The floor of the
rational product is computed as a floor division of integers
(`randomInt_eq_floor` below proves this equal to `⌊r * (max - min + 1)⌋ + min`). -/
def randomInt (r : ℚ) (lo hi : Int) : Int :=
  Int.fdiv (r.num * (hi - lo + 1)) (r.den : Int) + lo

/-- The `Board` class: `width`/`height` from the first two descriptor
fields, `roads` the enemy rows, `blocks` the terrain string, `items`
the item string (absent when the descriptor omits the items field, as
in `this.items === undefined`), and `initialItems` the constructor-time
snapshot (also absent in that case). -/
structure Board where
  width : Int
  height : Int
  roads : List Int
  blocks : List Char
  items : Option (List Char)
  initialItems : Option (List Char)
deriving DecidableEq

/-- The `Board(level)` constructor: splits the descriptor on `:` into
`cols:rows:roads:blocks:items`, parsing the numeric fields; the items
field and its snapshot are set only when a fifth field is present. -/
def Board.ofDesc (level : List Char) : Board :=
  let data := splitOnChar ':' level
  let items? := if 4 < data.length then some (data.getD 4 []) else none
  { width := jsParseInt (data.getD 0 [])
    height := jsParseInt (data.getD 1 [])
    roads := (splitOnChar ',' (data.getD 2 [])).map jsParseInt
    blocks := data.getD 3 []
    items := items?
    initialItems := items? }

/-- Models `Board.prototype.getBlock`: `blocks.charAt(row * width + col)`. -/
def Board.getBlock (b : Board) (row col : Int) : Option Char :=
  charAt b.blocks (row * b.width + col)

/-- Models `Board.prototype.setBlock`: splices the new block character into the
terrain string at `row * width + col`. -/
def Board.setBlock (b : Board) (row col : Int) (c : Char) : Board :=
  { b with blocks := stringSetAt b.blocks (row * b.width + col) c }

/-- Models `Board.prototype.getItem`: `Item.None` when the items layer was never
materialized, otherwise `items.charAt(row * width + col)`. -/
def Board.getItem (b : Board) (row col : Int) : Option Char :=
  match b.items with
  | none => some 'n'
  | some its => charAt its (row * b.width + col)

/-- The items layer `setItem` operates on: the lazily materialized
all-`'n'` layer of the length of the terrain string when the items
field is still `undefined`, the current layer otherwise. -/
def materializedItems (b : Board) : List Char :=
  match b.items with
  | none => List.replicate b.blocks.length 'n'
  | some its => its

/-- Models `Board.prototype.setItem`: lazily materializes an all-`'n'` items
layer of the length of the terrain string, then splices in the new item
character at `row * width + col`. -/
def Board.setItem (b : Board) (row col : Int) (c : Char) : Board :=
  { b with items := some (stringSetAt (materializedItems b) (row * b.width + col) c) }

/-- Models `Board.prototype.removeItem`: `setItem(row, col, Item.None)`. -/
def Board.removeItem (b : Board) (row col : Int) : Board :=
  b.setItem row col 'n'

/-- Models `Board.prototype.resetItems`: `this.items = this.initialItems`. -/
def Board.resetItems (b : Board) : Board :=
  { b with items := b.initialItems }

/-- One recorded `setItem` or `removeItem` call (for stating claims that
quantify over sequences of item-layer mutations). -/
inductive BoardOp where
  | setI (row col : Int) (c : Char)
  | removeI (row col : Int)
deriving DecidableEq

/-- Applies a sequence of recorded `setItem`/`removeItem` calls. -/
def applyBoardOps (ops : List BoardOp) (b : Board) : Board :=
  ops.foldl (fun b op =>
    match op with
    | .setI r c ch => b.setItem r c ch
    | .removeI r c => b.removeItem r c) b

/-- In-game events, one per callback slot of
`Game.prototype.initializeGameCallbacks`; firing a callback is modelled
as appending its event (with the argument the code passes) to a log. -/
inductive GEvent where
  | lifeLost (lives : Int)
  | lifeGained (lives : Int)
  | levelCleared (level : Int)
  | gameOver
  | restarted
  | completed
  | pausedEv
  | resumedEv
deriving DecidableEq

/-- The `Enemy` class (a `Character` with a `speed`): fractional
abscissa `x`, integer row `y`, rational `speed` (the blue gem divides it
by 3), and the sprite handle. -/
structure Enemy where
  x : ℚ
  y : Int
  speed : ℚ
  sprite : String
deriving DecidableEq

/-- The `Player` class data (a `Character` with an `indestructible`
flag); the `gainCallbacks` table installed once by
`Game.prototype.initializePlayer` is the fixed function
`gainCallbacks` below. -/
structure PlayerData where
  x : Int
  y : Int
  sprite : String
  indestructible : Bool
deriving DecidableEq

/-- The `Game` class state.  `board` is `null` (`none`) until the first
`levelUp`; the event-callback registry is modelled by the `log` field
recording each fired event. -/
structure Game where
  level : Int
  player : PlayerData
  enemies : List Enemy
  maxLives : Int
  lives : Int
  board : Option Board
  paused : Bool
  selectorHasFocus : Bool
  minEnemySpeed : Int
  maxEnemySpeed : Int
  numEnemies : Int
  log : List GEvent
deriving DecidableEq

/-- Dereference of `this.board`; the default is never reached in play
because every method reading the board runs after the constructor's
`levelUp` has installed one. -/
def Game.boardD (g : Game) : Board :=
  g.board.getD { width := 0, height := 0, roads := [], blocks := [], items := none,
                 initialItems := none }

/-- The ten authored level descriptors of
`Game.prototype.initializeLevels` (identical in both engine
revisions). -/
def gameLevels : List (List Char) :=
  [("5:3:1:GGGGGSSSSSGGGGG:nnnnnnnnnnnnnnn").data,
   ("5:5:2,3:GGGGGWSWSWSSSSSSSSSSGGGGG:nnnnnnnnnnnnnnnngnnnnnnnn").data,
   ("6:6:1,4:GGGGGGSSSSSSWWWWWWWWWWWWSSSSSSGGGGGG:nnnnnnnnnnnnnnnnnnnnnnnnnnnnrnnnnnnn").data,
   ("5:6:2,3,4:GGGGGWWSWWSSSSSSSSSSSSSSSGGGGG:nnnnnnnnnnnnnnnnbnnnnnnnnnnnnn").data,
   ("5:6:1,3,4:GGGGGSSSSSSSWSSSSSSSSSSSSGGGGG:nnnnnnnnnnngnbnnnnnnnnnnnnnnnn").data,
   ("7:7:1,2,3,5:GGGGGGGSSSSSSSSSSSSSSSSSSSSSWWWSWWWSSSSSSSGGGGGGG:nnnnnnnnnnnnnnnnnnnnnnnnnnnnsnnnnnnnnrnnnnnnnnnnn").data,
   ("5:5:1,3:GGGGGSSSSSSWSWSSSSSSGGGGG:nnnnnnnnnnnnnnnnnnnnnnnnn").data,
   ("6:7:1,5:GGGGGGSSSSSSWSWSWSSWSWSWWSWSWSSSSSSSGGGGGG:nnnnnnnnnnnnnnnnnnnnnnnnnrnnnnnnnnnnnnnnnn").data,
   ("5:5:1,2,3:WGWGWSSSSSSSSSSSSSSSGGGGG:nnnnnnnnnnnnnnnnnnnnnnnnn").data,
   ("8:7:1,3,5:GGWWWWGGSSSSSSSSWWSSWWSSSSSSSSSSSSWWSSWWSSSSSSSSGGGGGGGG:nnnnnnnnnnnnnnnnnnnnnnngnnnnsnnnbnnnnnnnnnnnnnnnnnnnnnnn").data]

/-- Models `Game.prototype.pause`: flips the flag and fires the paused callback
only when not already paused. -/
def Game.pause (g : Game) : Game :=
  if g.paused then g else { g with paused := true, log := g.log ++ [GEvent.pausedEv] }

/-- Models `Game.prototype.resume`: flips the flag and fires the resumed
callback only when currently paused. -/
def Game.resume (g : Game) : Game :=
  if g.paused then { g with paused := false, log := g.log ++ [GEvent.resumedEv] } else g

/-- Models `Game.prototype.levelUp`.  `o` supplies the successive
`Math.random()` draws of this call: `o 0` for `spawnPlayer`, `o (i + 1)`
for the speed of enemy `i`.  The three branches follow the source:
`level === levels.length` fires the completed callback and returns;
`level < levels.length` bumps both speed bounds, installs a fresh board,
refills the lives (firing the life-gained callback), respawns the player
(`spawnPlayer`), rebuilds one enemy per road and fires the level-cleared
callback; larger levels only keep the incremented counter. -/
def Game.levelUp (o : Nat → ℚ) (g : Game) : Game :=
  let lv := g.level + 1
  if lv = (gameLevels.length : Int) then
    { g with level := lv, log := g.log ++ [GEvent.completed] }
  else if lv < (gameLevels.length : Int) then
    let minS := g.minEnemySpeed + 1
    let maxS := g.maxEnemySpeed + 1
    let b := Board.ofDesc (intGetD gameLevels lv [])
    let g1 := { g with level := lv, minEnemySpeed := minS, maxEnemySpeed := maxS,
                       board := some b, lives := g.maxLives,
                       log := g.log ++ [GEvent.lifeGained g.maxLives] }
    let g2 := { g1 with player := { g1.player with x := randomInt (o 0) 0 (b.width - 1),
                                                   y := b.height - 1 } }
    let enemies := (List.range b.roads.length).map (fun i =>
      { x := -1, y := b.roads.getD i 0, speed := ((randomInt (o (i + 1)) minS maxS : Int) : ℚ),
        sprite := "images/enemy-bug.png" : Enemy })
    { g2 with enemies := enemies, numEnemies := (b.roads.length : Int),
              log := g2.log ++ [GEvent.levelCleared lv] }
  else
    { g with level := lv }

/-- The field assignments of `Game.prototype.restart` before its final
`levelUp()` call: level back to `-1`, speed bounds to `1` and `5`, and
the restart callback fired. -/
def Game.restartAssign (g : Game) : Game :=
  { g with level := -1, minEnemySpeed := 1, maxEnemySpeed := 5, log := g.log ++ [GEvent.restarted] }

/-- Models `Game.prototype.restart`: the assignments above followed by
`levelUp()`. -/
def Game.restart (o : Nat → ℚ) (g : Game) : Game :=
  Game.levelUp o (Game.restartAssign g)

/-- The assist item array of `Game.prototype.helpPlayer`:
`[Item.Heart, Item.Star, Item.Key, Item.Rock, Item.BlueGem, Item.GreenGem]`. -/
def itemsAssist : List Char := ['h', 's', 'k', 'r', 'b', 'g']

/-- The scan of `helpPlayer`'s placement loop, with `n` the starting
column: returns the first column in `n, n-1, ..., 1` (column `0`
excluded by the loop condition `col > 0`) whose item cell holds
`Item.None`. -/
def goFindFree (b : Board) (row : Int) : Nat → Option Int
  | 0 => none
  | n + 1 =>
    if b.getItem row ((n + 1 : Nat) : Int) = some 'n' then some ((n + 1 : Nat) : Int)
    else goFindFree b row n

/-- The full placement scan of `helpPlayer`: columns `width - 1` down to
`1`. -/
def findFreeCol (b : Board) (row : Int) : Option Int :=
  goFindFree b row (b.width - 1).toNat

/-- Models `Game.prototype.helpPlayer`: behind the `lives >= 1` guard, teleports
the player to the bottom-left tile, draws one assist item with
`randomInt(0, items.length - 1)` (`o 0` being this call's
`Math.random()` draw), and walks the bottom row right-to-left; at the
first free cell it places the item, decrements the lives and fires the
life-lost callback, then breaks.  When the scan finds no free cell the
loop body never runs, so neither the lives nor the board change. -/
def Game.helpPlayer (o : Nat → ℚ) (g : Game) : Game :=
  if 1 ≤ g.lives then
    let g1 := { g with player := { g.player with x := 0, y := g.boardD.height - 1 } }
    let item := intGetD itemsAssist (randomInt (o 0) 0 ((itemsAssist.length : Int) - 1)) 'n'
    let row := g1.boardD.height - 1
    match findFreeCol g1.boardD row with
    | some col =>
      { g1 with board := some (g1.boardD.setItem row col item), lives := g1.lives - 1,
                log := g1.log ++ [GEvent.lifeLost (g1.lives - 1)] }
    | none => g1
  else g

/-- The `Item.Star` gain handler: sets the indestructibility flag and
swaps the sprite for its `-star` variant unless already indestructible
(the guard against stacking); its 1-second `setTimeout` reversal does
not run synchronously and is not part of this immediate effect. -/
def starGain (g : Game) : Game :=
  if g.player.indestructible then g
  else
    let p := g.player
    let p2 := { p with indestructible := true, sprite := p.sprite.dropRight 4 ++ "-star.png" }
    { g with player := p2 }

/-- The water-to-stone sweep of the `Item.Rock` gain handler: the double
loop over rows `0..height-1` and columns `0..width-1` turning every
`Water` block into `Stone`. -/
def waterToStone (b : Board) : Board :=
  (List.range b.height.toNat).foldl (fun b1 r =>
    (List.range b1.width.toNat).foldl (fun b2 c =>
      if b2.getBlock ((r : Nat) : Int) ((c : Nat) : Int) = some 'W' then
        b2.setBlock ((r : Nat) : Int) ((c : Nat) : Int) 'S'
      else b2) b1) b

/-- The `Item.Rock` gain handler's immediate effect (its same-level
guarded 1-second reversal does not run synchronously). -/
def rockGain (g : Game) : Game :=
  { g with board := some (waterToStone g.boardD) }

/-- The `Item.GreenGem` gain handler's immediate effect: the speeds of
the first `numEnemies` enemies are forced to `0` (the captured previous
speeds feed only the deferred reversal, which does not run
synchronously). -/
def greenGemGain (g : Game) : Game :=
  { g with enemies := g.enemies.mapIdx (fun i e =>
      if (i : Int) < g.numEnemies then { e with speed := 0 } else e) }

/-- The `Item.BlueGem` gain handler's immediate effect, identical in
both engine revisions: every enemy's speed is divided by 3. -/
def blueGemGain (g : Game) : Game :=
  { g with enemies := g.enemies.map (fun e => { e with speed := e.speed / 3 }) }

/-- The deferred body of the blue-gem `setTimeout` in the `js/app.js`
revision: every enemy speed is multiplied back by 3, with no same-level
guard. -/
def blueGemReversalApp (g : Game) : Game :=
  { g with enemies := g.enemies.map (fun e => { e with speed := e.speed * 3 }) }

/-- The deferred body of the blue-gem `setTimeout` in the second engine
revision: the multiplication back by 3 runs only when the game's current
level still equals the level captured at collection time. -/
def blueGemReversalRev (capturedLevel : Int) (g : Game) : Game :=
  if g.level = capturedLevel then
    { g with enemies := g.enemies.map (fun e => { e with speed := e.speed * 3 }) }
  else g

/-- The `Item.Heart` gain handler: one life gained, life-gained
callback fired. -/
def heartGain (g : Game) : Game :=
  { g with lives := g.lives + 1, log := g.log ++ [GEvent.lifeGained (g.lives + 1)] }

/-- The `gainCallbacks` table installed once by
`Game.prototype.initializePlayer` (`onGain` for each item character),
modelled as a lookup returning the handler for the seven registered item
characters; `none` models `hasOwnProperty` returning false for an
unregistered key. -/
def gainCallbacks (o : Nat → ℚ) (c : Char) : Option (Game → Game) :=
  if c = 'h' then some heartGain
  else if c = 's' then some starGain
  else if c = 'k' then some (Game.levelUp o)
  else if c = 'r' then some rockGain
  else if c = 'b' then some blueGemGain
  else if c = 'g' then some greenGemGain
  else if c = 'o' then some (fun g => g)
  else none

/-- Models `Player.prototype.moveTo` over an arbitrary installed callback table
`cb`: drops the move while paused; otherwise sets the position, reads
the item layer at the destination, and when that cell is not
`Item.None` invokes the registered callback (if any) and then removes
the item from the (possibly callback-updated) board. -/
def moveToGen (cb : Char → Option (Game → Game)) (x y : Int) (g : Game) : Game :=
  if g.paused then g
  else
    let g1 := { g with player := { g.player with x := x, y := y } }
    let item := g1.boardD.getItem y x
    if item = some 'n' then g1
    else
      let g2 := match item with
        | some c =>
          match cb c with
          | some f => f g1
          | none => g1
        | none => g1
      { g2 with board := some (g2.boardD.removeItem y x) }

/-- Models `Player.prototype.moveTo` with the game's installed
`gainCallbacks`. -/
def Player.moveTo (o : Nat → ℚ) (x y : Int) (g : Game) : Game :=
  moveToGen (gainCallbacks o) x y g

/-- Models `Player.prototype.handleInput`: each arrow key moves one tile when
the destination stays on the board; `help`, `pause` and `quit` dispatch
to the game; every other key (including the `undefined` of an unmapped
key code) falls through to the default case. -/
def Player.handleInput (o : Nat → ℚ) (key : String) (g : Game) : Game :=
  if key = "left" then
    (if 0 < g.player.x then Player.moveTo o (g.player.x - 1) g.player.y g else g)
  else if key = "up" then
    (if 0 < g.player.y then Player.moveTo o g.player.x (g.player.y - 1) g else g)
  else if key = "right" then
    (if g.player.x < g.boardD.width - 1 then Player.moveTo o (g.player.x + 1) g.player.y g else g)
  else if key = "down" then
    (if g.player.y < g.boardD.height - 1 then Player.moveTo o g.player.x (g.player.y + 1) g else g)
  else if key = "help" then Game.helpPlayer o g
  else if key = "pause" then
    (if ¬g.paused then Game.pause g else Game.resume g)
  else if key = "quit" then
    Game.restart o { (Game.resume g) with selectorHasFocus := true }
  else g

/-- Models `Enemy.prototype.update`: advances `x` by `speed * dt`; when the new
abscissa passes the right board edge the enemy wraps to `x = -1`, a road
drawn with `randomInt(0, roads.length - 1)` (random draw `o 0`) and a
speed drawn with `randomInt(minEnemySpeed, maxEnemySpeed)` (random draw
`o 1`). -/
def Enemy.update (o : Nat → ℚ) (dt : ℚ) (g : Game) (e : Enemy) : Enemy :=
  let x := e.x + e.speed * dt
  if ((g.boardD.width : Int) : ℚ) ≤ x then
    { e with x := -1,
             y := intGetD g.boardD.roads
                    (randomInt (o 0) 0 ((g.boardD.roads.length : Int) - 1)) 0,
             speed := ((randomInt (o 1) g.minEnemySpeed g.maxEnemySpeed : Int) : ℚ) }
  else
    { e with x := x }

/-- The `Game` constructor state of the `js/app.js` revision just before
its final `levelUp()` call: fields initialized, levels and player
callbacks installed, and `initializeEnemies` has set the speed bounds to
`1` and `4`. -/
def appGameInit : Game :=
  { level := -1
    player := { x := 0, y := 0, sprite := "images/char-boy.png", indestructible := false }
    enemies := []
    maxLives := 3
    lives := 3
    board := none
    paused := false
    selectorHasFocus := true
    minEnemySpeed := 1
    maxEnemySpeed := 4
    numEnemies := 0
    log := [] }

/-- The `Game` constructor state of the second engine revision just
before its final `levelUp()` call: identical except that the constructor
initializes the speed bounds inline to `1` and `5`. -/
def revGameInit : Game :=
  { appGameInit with maxEnemySpeed := 5 }

/-- A freshly constructed `js/app.js` game (the constructor ends by
calling `levelUp()`, entering level 0). -/
def Game.newApp (o : Nat → ℚ) : Game :=
  Game.levelUp o appGameInit

/-- A freshly constructed game of the second engine revision. -/
def Game.newRev (o : Nat → ℚ) : Game :=
  Game.levelUp o revGameInit

/-- Iterates `n` successive `levelUp()` calls, the `k`-th using the oracle
`O k`. -/
def iterLevelUp (O : Nat → Nat → ℚ) : Nat → Game → Game
  | 0, g => g
  | n + 1, g => iterLevelUp (fun k => O (k + 1)) n (Game.levelUp (O 0) g)

/-- Occurrences of one event in a fired-event log. -/
def countEv (e : GEvent) (l : List GEvent) : Nat :=
  (l.filter (fun x => x = e)).length

/-- The all-zero random oracle, used to instantiate witnesses. -/
def oZero : Nat → ℚ := fun _ => 0

/-- A concrete enemy of speed 3 on row 1. -/
def c2Enemy : Enemy :=
  { x := 0, y := 1, speed := 3, sprite := "images/enemy-bug.png" }

/-- A concrete game at level 1 with a single enemy of speed 3, used to
exhibit the unguarded blue-gem reversal of the `js/app.js` revision. -/
def c2Game : Game :=
  { appGameInit with level := 1, enemies := [c2Enemy] }

/-- A one-row board whose bottom row has no free cell outside column 0:
descriptor `2:1:0:GG:nr` gives width 2, height 1, and an `'r'` item in
column 1. -/
def c1Game : Game :=
  { appGameInit with board := some (Board.ofDesc ("2:1:0:GG:nr").data) }

/-- The first-level game state used to instantiate the enemy wrap
witness. -/
def c4Game : Game :=
  { appGameInit with board := some (Board.ofDesc ("5:3:1:GGGGGSSSSSGGGGG:nnnnnnnnnnnnnnn").data) }

/-- A concrete enemy about to run off the right edge. -/
def c4Enemy : Enemy :=
  { x := 4, y := 1, speed := 2, sprite := "images/enemy-bug.png" }

/-- The position assignment of `moveTo` (`this.x = x; this.y = y`). -/
def posSet (x y : Int) (g : Game) : Game :=
  { g with player := { g.player with x := x, y := y } }

/-- The callback dispatch of `moveTo`: the registered callback for the
destination item is applied when one exists (`hasOwnProperty`),
otherwise the state is untouched; an out-of-range read (the empty
string) matches no key. -/
def afterGain (cb : Char → Option (Game → Game)) (item : Option Char) (g1 : Game) : Game :=
  match item with
  | some c =>
    match cb c with
    | some f => f g1
    | none => g1
  | none => g1

/-- A paused variant of the fresh constructor state. -/
def c5Paused : Game :=
  { appGameInit with paused := true }

/-- A concrete game one `levelUp` short of the terminal level. -/
def c9Game : Game :=
  { appGameInit with level := 9 }

/-- The well-formedness the bounds claim needs of a game state: not
paused, level at least `-1` (true from construction on, since the level
starts at `-1`, is only ever incremented, and is reset to `-1`), and the
player inside the current board. -/
def InBoundsGame (g : Game) : Prop :=
  g.paused = false ∧ -1 ≤ g.level ∧
  0 ≤ g.player.x ∧ g.player.x ≤ g.boardD.width - 1 ∧
  0 ≤ g.player.y ∧ g.player.y ≤ g.boardD.height - 1

instance (g : Game) : Decidable (InBoundsGame g) := by
  unfold InBoundsGame
  infer_instance

/-- The contract of `Math.random()`: every draw lies in `[0, 1)`. -/
def OracleOK (o : Nat → ℚ) : Prop := ∀ n, 0 ≤ o n ∧ o n < 1

/-- Delivers a sequence of input symbols to `Player.handleInput`, each
with the oracle supplying the random draws of that call. -/
def deliverInputs : List (String × (Nat → ℚ)) → Game → Game
  | [], g => g
  | (k, o) :: rest, g => deliverInputs rest (Player.handleInput o k g)

/-- The integer-division form of `randomInt` computes the floor from
`Math.floor(r * (max - min + 1)) + min`. -/
theorem randomInt_eq_floor (r : ℚ) (lo hi : Int) :
    randomInt r lo hi = ⌊r * (((hi - lo + 1 : Int) : ℚ))⌋ + lo := by
  unfold randomInt
  congr 1
  have h1 : ((r.num * (hi - lo + 1) : Int) : ℚ) / ((r.den : ℕ) : ℚ)
      = r * ((hi - lo + 1 : Int) : ℚ) := by
    push_cast
    rw [mul_div_right_comm, Rat.num_div_den]
  rw [← h1, Rat.floor_intCast_div_natCast, Int.fdiv_eq_ediv]
  exact_mod_cast Nat.zero_le r.den

/-- The value of `randomInt` lands in the inclusive range `[lo, hi]` whenever the
random draw is in `[0, 1)` and the range is nonempty. -/
theorem randomInt_mem (r : ℚ) (lo hi : Int) (h0 : 0 ≤ r) (h1 : r < 1)
    (hm : lo ≤ hi) : lo ≤ randomInt r lo hi ∧ randomInt r lo hi ≤ hi := by
  rw [randomInt_eq_floor]
  have hk : (0 : ℚ) < ((hi - lo + 1 : Int) : ℚ) := by
    have : (1 : Int) ≤ hi - lo + 1 := by omega
    exact_mod_cast lt_of_lt_of_le Int.zero_lt_one this
  have hlow : (0 : Int) ≤ ⌊r * ((hi - lo + 1 : Int) : ℚ)⌋ := by
    apply Int.floor_nonneg.mpr
    positivity
  have hup : ⌊r * ((hi - lo + 1 : Int) : ℚ)⌋ < hi - lo + 1 := by
    apply Int.floor_lt.mpr
    calc r * ((hi - lo + 1 : Int) : ℚ) < 1 * ((hi - lo + 1 : Int) : ℚ) := by
          exact mul_lt_mul_of_pos_right h1 hk
      _ = ((hi - lo + 1 : Int) : ℚ) := by ring
  omega

/-- Splicing a character at an in-range index is `List.set`. -/
theorem stringSetAt_eq_set (s : List Char) (i : Int) (c : Char) (h0 : 0 ≤ i)
    (h : i.toNat < s.length) : stringSetAt s i c = s.set i.toNat c := by
  unfold stringSetAt
  have h1 : (i + 1).toNat = i.toNat + 1 := by omega
  rw [h1, List.set_eq_take_append_cons_drop, if_pos h]
  simp

/-- Reading back the index just written by an in-range splice. -/
theorem charAt_stringSetAt_self (s : List Char) (i : Int) (c : Char) (h0 : 0 ≤ i)
    (h : i.toNat < s.length) : charAt (stringSetAt s i c) i = some c := by
  rw [stringSetAt_eq_set s i c h0 h]
  unfold charAt
  rw [if_pos h0]
  rw [List.get?_eq_getElem?, List.getElem?_set]
  simp [h]

/-- An in-range splice leaves every other index unchanged. -/
theorem charAt_stringSetAt_other (s : List Char) (i j : Int) (c : Char) (h0 : 0 ≤ i)
    (h : i.toNat < s.length) (hne : j ≠ i) :
    charAt (stringSetAt s i c) j = charAt s j := by
  rw [stringSetAt_eq_set s i c h0 h]
  unfold charAt
  by_cases hj : 0 ≤ j
  · rw [if_pos hj, if_pos hj]
    rw [List.get?_eq_getElem?, List.get?_eq_getElem?, List.getElem?_set]
    have : i.toNat ≠ j.toNat := by omega
    simp [this]
  · rw [if_neg hj, if_neg hj]

/-- A row-major index of an in-bounds cell is in range for a
`width * height` grid string. -/
theorem rowMajor_bounds {w h row col : Int} (hr0 : 0 ≤ row) (hr : row < h)
    (hc0 : 0 ≤ col) (hc : col < w) :
    0 ≤ row * w + col ∧ row * w + col < w * h := by
  constructor
  · have : 0 ≤ row * w := mul_nonneg hr0 (by omega)
    omega
  · nlinarith [mul_le_mul_of_nonneg_right (show row ≤ h - 1 by omega) (show (0:Int) ≤ w by omega)]

/-- Distinct in-bounds cells have distinct row-major indices. -/
theorem rowMajor_inj {w h row col row' col' : Int} (hr0 : 0 ≤ row) (hr : row < h)
    (hc0 : 0 ≤ col) (hc : col < w) (hr0' : 0 ≤ row') (hr' : row' < h)
    (hc0' : 0 ≤ col') (hc' : col' < w)
    (heq : row' * w + col' = row * w + col) : row' = row ∧ col' = col := by
  rcases lt_trichotomy row' row with hlt | heqr | hgt
  · exfalso
    nlinarith [mul_le_mul_of_nonneg_right (show row' + 1 ≤ row by omega) (show (0:Int) ≤ w by omega)]
  · subst heqr
    omega
  · exfalso
    nlinarith [mul_le_mul_of_nonneg_right (show row + 1 ≤ row' by omega) (show (0:Int) ≤ w by omega)]

/-- C7: on a board whose terrain string has the full `width * height`
length, `setBlock` at an in-bounds cell followed by `getBlock` at the
same cell returns the written block, and `getBlock` at every other
in-bounds cell is unchanged. -/
theorem setBlock_getBlock (b : Board) (row col : Int) (k : Char)
    (hr0 : 0 ≤ row) (hr : row < b.height) (hc0 : 0 ≤ col) (hc : col < b.width)
    (hlen : (b.blocks.length : Int) = b.width * b.height) :
    (b.setBlock row col k).getBlock row col = some k ∧
    ∀ row' col', 0 ≤ row' → row' < b.height → 0 ≤ col' → col' < b.width →
      (row', col') ≠ (row, col) →
      (b.setBlock row col k).getBlock row' col' = b.getBlock row' col' := by
  obtain ⟨hi0, hiu⟩ := rowMajor_bounds hr0 hr hc0 hc
  have hidx : (row * b.width + col).toNat < b.blocks.length := by omega
  constructor
  · unfold Board.setBlock Board.getBlock
    exact charAt_stringSetAt_self _ _ _ hi0 hidx
  · intro row' col' hr0' hr' hc0' hc' hne
    unfold Board.setBlock Board.getBlock
    apply charAt_stringSetAt_other _ _ _ _ hi0 hidx
    intro hcontra
    exact hne (by
      obtain ⟨h1, h2⟩ := rowMajor_inj hr0 hr hc0 hc hr0' hr' hc0' hc' hcontra
      simp [h1, h2])

/-- C7 witness: a concrete in-bounds write/read on the first level's
board. -/
theorem setBlock_getBlock_witness :
    ((Board.ofDesc ("5:3:1:GGGGGSSSSSGGGGG:nnnnnnnnnnnnnnn").data).setBlock 1 2 'W').getBlock 1 2
      = some 'W' :=
  (setBlock_getBlock (Board.ofDesc ("5:3:1:GGGGGSSSSSGGGGG:nnnnnnnnnnnnnnn").data)
    1 2 'W' (by decide) (by decide) (by decide) (by decide) (by decide)).1

/-- The calls `setItem` and `removeItem` never touch the constructor-time snapshot
nor the board geometry. -/
theorem applyBoardOps_frame (ops : List BoardOp) (b : Board) :
    (applyBoardOps ops b).initialItems = b.initialItems ∧
    (applyBoardOps ops b).width = b.width := by
  induction ops generalizing b with
  | nil => exact ⟨rfl, rfl⟩
  | cons op rest ih =>
    cases op with
    | setI r c ch => simpa [applyBoardOps, Board.setItem] using ih (b.setItem r c ch)
    | removeI r c =>
      simpa [applyBoardOps, Board.removeItem, Board.setItem] using ih (b.removeItem r c)

/-- C6: for a board built by the `Board` constructor from any descriptor
(including descriptors omitting the items field), `resetItems` after any
sequence of `setItem`/`removeItem` calls restores every in-bounds
`getItem` observation to its constructor-time value. -/
theorem resetItems_restores (desc : List Char) (ops : List BoardOp) (row col : Int)
    (hr0 : 0 ≤ row) (hr : row < (Board.ofDesc desc).height)
    (hc0 : 0 ≤ col) (hc : col < (Board.ofDesc desc).width) :
    (applyBoardOps ops (Board.ofDesc desc)).resetItems.getItem row col
      = (Board.ofDesc desc).getItem row col := by
  obtain ⟨hInit, hW⟩ := applyBoardOps_frame ops (Board.ofDesc desc)
  unfold Board.resetItems Board.getItem
  rw [hInit, hW]
  have : (Board.ofDesc desc).initialItems = (Board.ofDesc desc).items := by
    unfold Board.ofDesc
    simp
  rw [this]

/-- C6 witness: a concrete mutation sequence on a board built without an
items field, checked at an in-bounds cell. -/
theorem resetItems_restores_witness :
    (applyBoardOps [.setI 2 3 'r', .removeI 2 1, .setI 0 0 'b']
        (Board.ofDesc ("5:3:1:GGGGGSSSSSGGGGG").data)).resetItems.getItem 2 3
      = (Board.ofDesc ("5:3:1:GGGGGSSSSSGGGGG").data).getItem 2 3 :=
  resetItems_restores ("5:3:1:GGGGGSSSSSGGGGG").data
    [.setI 2 3 'r', .removeI 2 1, .setI 0 0 'b'] 2 3
    (by decide) (by decide) (by decide) (by decide)

/-- Counting over a concatenation of fired events. -/
theorem countEv_append (e : GEvent) (l1 l2 : List GEvent) :
    countEv e (l1 ++ l2) = countEv e l1 + countEv e l2 := by
  simp [countEv, List.filter_append]

/-- The game has ten authored levels. -/
theorem gameLevels_length : gameLevels.length = 10 := rfl

/-- Reading back the cell just written by `setItem` when its row-major
index is in range of the materialized items layer. -/
theorem getItem_setItem_self (b : Board) (row col : Int) (c : Char)
    (h0 : 0 ≤ row * b.width + col)
    (h : (row * b.width + col).toNat < (materializedItems b).length) :
    (b.setItem row col c).getItem row col = some c := by
  unfold Board.setItem Board.getItem
  exact charAt_stringSetAt_self _ _ _ h0 h

/-- An in-range `Int` index into a list lands on one of its elements. -/
theorem intGetD_mem (l : List α) (i : Int) (d : α) (h0 : 0 ≤ i)
    (h : i.toNat < l.length) : intGetD l i d ∈ l := by
  unfold intGetD
  rw [if_pos h0]
  rw [List.getD_eq_getElem?_getD, List.getElem?_eq_getElem h]
  exact List.getElem_mem h

/-- C8: `pause` and `resume` are idempotent: a call in the target state
changes nothing and fires nothing, and each state-changing call fires
its event exactly once, so two consecutive `pause()` calls fire the
paused event exactly once (and likewise for `resume()`). -/
theorem pause_resume_idempotent (g : Game) :
    Game.pause (Game.pause g) = Game.pause g ∧
    Game.resume (Game.resume g) = Game.resume g ∧
    (g.paused = true → Game.pause g = g) ∧
    (g.paused = false → Game.resume g = g) ∧
    (g.paused = false → (Game.pause g).paused = true ∧
      countEv GEvent.pausedEv (Game.pause (Game.pause g)).log
        = countEv GEvent.pausedEv g.log + 1) ∧
    (g.paused = true → (Game.resume g).paused = false ∧
      countEv GEvent.resumedEv (Game.resume (Game.resume g)).log
        = countEv GEvent.resumedEv g.log + 1) := by
  cases hp : g.paused <;>
    simp [Game.pause, Game.resume, countEv, hp, List.filter_append]

/-- C8 witness: a second `resume` on the (unpaused) fresh constructor
state is dropped, and a double `pause` from it fires the paused event
exactly once. -/
theorem pause_resume_idempotent_witness :
    Game.resume appGameInit = appGameInit ∧
    countEv GEvent.pausedEv (Game.pause (Game.pause appGameInit)).log
      = countEv GEvent.pausedEv appGameInit.log + 1 :=
  ⟨(pause_resume_idempotent appGameInit).2.2.2.1 rfl,
   ((pause_resume_idempotent appGameInit).2.2.2.2.1 rfl).2⟩

/-- C2 counterexample: in the `js/app.js` revision the deferred blue-gem
reversal multiplies enemy speeds by 3 even when the game's level (here
1) differs from the level at collection time (here 0): the claim's
"no enemy speed is modified by the reversal ... in both engine
revisions" is false for this revision. -/
theorem blueGem_app_unguarded :
    c2Game.level ≠ 0 ∧
    c2Game.enemies.map Enemy.speed = [3] ∧
    (blueGemReversalApp c2Game).enemies.map Enemy.speed = [9] := by
  refine ⟨by decide, by simp [c2Game, c2Enemy, appGameInit], ?_⟩
  simp [blueGemReversalApp, c2Game, c2Enemy, appGameInit]
  norm_num

/-- C2 amended: collecting a blue gem divides every enemy speed by 3 in
both revisions; the deferred reversal multiplies the speeds back by 3
under the same-level guard only in the second engine revision, while the
`js/app.js` revision's reversal multiplies them back unconditionally. -/
theorem blueGem_spec (cap : Int) (g : Game) :
    (blueGemGain g).enemies.map Enemy.speed = g.enemies.map (fun e => e.speed / 3) ∧
    (g.level = cap →
      (blueGemReversalRev cap g).enemies.map Enemy.speed
        = g.enemies.map (fun e => e.speed * 3)) ∧
    (g.level ≠ cap → blueGemReversalRev cap g = g) ∧
    (blueGemReversalApp g).enemies.map Enemy.speed = g.enemies.map (fun e => e.speed * 3) := by
  refine ⟨?_, ?_, ?_, ?_⟩
  · simp [blueGemGain]
  · intro h
    simp [blueGemReversalRev, h]
  · intro h
    simp [blueGemReversalRev, h]
  · simp [blueGemReversalApp]

/-- C2 witness: the guarded reversal applied at an unchanged level
multiplies the concrete enemy speed back by 3. -/
theorem blueGem_spec_witness :
    (blueGemReversalRev 1 c2Game).enemies.map Enemy.speed
      = c2Game.enemies.map (fun e => e.speed * 3) :=
  (blueGem_spec 1 c2Game).2.1 rfl

/-- C3 counterexample: `restart()` assigns `maxEnemySpeed = 5`, but at
construction of the `js/app.js` revision `initializeEnemies` had set it
to `4`, so the restart assignment is not the value held at game
construction in that revision. -/
theorem restart_bounds_counterexample :
    (Game.restartAssign (Game.newApp oZero)).maxEnemySpeed = 5 ∧
    appGameInit.maxEnemySpeed = 4 ∧ (5 : Int) ≠ 4 := by
  refine ⟨?_, by decide, by decide⟩
  simp [Game.restartAssign]

/-- C3 amended: `restart()` sets the level to `-1` and the speed bounds
to `1` and `5` (the initial values of the second engine revision's
constructor, but not of `js/app.js`, whose `initializeEnemies` sets
`maxEnemySpeed = 4`), fires the restart event exactly once, then calls
`levelUp()`, so the game re-enters level 0. -/
theorem restart_spec (o : Nat → ℚ) (g : Game) :
    (Game.restartAssign g).level = -1 ∧
    (Game.restartAssign g).minEnemySpeed = 1 ∧
    (Game.restartAssign g).maxEnemySpeed = 5 ∧
    countEv GEvent.restarted (Game.restartAssign g).log
      = countEv GEvent.restarted g.log + 1 ∧
    Game.restart o g = Game.levelUp o (Game.restartAssign g) ∧
    (Game.restart o g).level = 0 ∧
    revGameInit.minEnemySpeed = 1 ∧ revGameInit.maxEnemySpeed = 5 ∧
    appGameInit.minEnemySpeed = 1 ∧ appGameInit.maxEnemySpeed = 4 := by
  refine ⟨by simp [Game.restartAssign], by simp [Game.restartAssign],
    by simp [Game.restartAssign], ?_, rfl, ?_, by decide, by decide, by decide, by decide⟩
  · simp [Game.restartAssign, countEv, List.filter_append]
  · show (Game.levelUp o (Game.restartAssign g)).level = 0
    simp [Game.levelUp, Game.restartAssign, gameLevels_length]

/-- Characterization of `helpPlayer`'s placement scan: scanning columns
`n` down to `1`, a hit is the largest free column in `[1, n]` and a miss
means no column in `[1, n]` is free. -/
theorem goFindFree_spec (b : Board) (row : Int) (n : Nat) :
    (∀ col : Int, goFindFree b row n = some col →
       1 ≤ col ∧ col ≤ (n : Int) ∧ b.getItem row col = some 'n' ∧
       ∀ c : Int, col < c → c ≤ (n : Int) → b.getItem row c ≠ some 'n') ∧
    (goFindFree b row n = none →
       ∀ c : Int, 1 ≤ c → c ≤ (n : Int) → b.getItem row c ≠ some 'n') := by
  induction n with
  | zero =>
    refine ⟨fun col h => by simp [goFindFree] at h, fun _ c hc1 hc2 => ?_⟩
    exfalso
    omega
  | succ n ih =>
    have hcast : (((n + 1 : Nat)) : Int) = (n : Int) + 1 := by push_cast; ring
    by_cases h : b.getItem row (((n + 1 : Nat)) : Int) = some 'n'
    · refine ⟨fun col hcol => ?_, fun hnone => ?_⟩
      · rw [goFindFree, if_pos h] at hcol
        obtain rfl : (((n + 1 : Nat)) : Int) = col := by simpa using hcol
        refine ⟨by omega, by omega, h, fun c hc1 hc2 => ?_⟩
        exfalso
        omega
      · rw [goFindFree, if_pos h] at hnone
        simp at hnone
    · refine ⟨fun col hcol => ?_, fun hnone c hc1 hc2 => ?_⟩
      · rw [goFindFree, if_neg h] at hcol
        obtain ⟨hb1, hb2, hb3, hb4⟩ := ih.1 col hcol
        refine ⟨hb1, by omega, hb3, fun c hc1 hc2 => ?_⟩
        by_cases hce : c = (n : Int) + 1
        · rw [← hcast] at hce
          exact hce ▸ h
        · exact hb4 c hc1 (by omega)
      · rw [goFindFree, if_neg h] at hnone
        by_cases hce : c = (n : Int) + 1
        · rw [← hcast] at hce
          exact hce ▸ h
        · exact ih.2 hnone c hc1 (by omega)

/-- C1 amended: with at least one life, `helpPlayer` teleports the
player to the bottom-left tile; when the right-to-left scan of the
bottom row (columns `width - 1` down to `1`, column `0` excluded) finds
a free cell, it is the rightmost free one, an item from the assist set
is placed there and one life is deducted; when the bottom row has no
free cell in those columns, the teleport still happens but the lives and
the board are left unchanged (the claim's life cost does not occur). -/
theorem helpPlayer_spec (o : Nat → ℚ) (g : Game) (h0 : 0 ≤ o 0) (h1 : o 0 < 1)
    (hl : 1 ≤ g.lives) :
    (Game.helpPlayer o g).player.x = 0 ∧
    (Game.helpPlayer o g).player.y = g.boardD.height - 1 ∧
    (∀ col : Int, findFreeCol g.boardD (g.boardD.height - 1) = some col →
       1 ≤ col ∧ col ≤ g.boardD.width - 1 ∧
       g.boardD.getItem (g.boardD.height - 1) col = some 'n' ∧
       (∀ c : Int, col < c → c ≤ g.boardD.width - 1 →
          g.boardD.getItem (g.boardD.height - 1) c ≠ some 'n') ∧
       (Game.helpPlayer o g).lives = g.lives - 1 ∧
       ∃ ch ∈ itemsAssist,
         (Game.helpPlayer o g).board
           = some (g.boardD.setItem (g.boardD.height - 1) col ch)) ∧
    (findFreeCol g.boardD (g.boardD.height - 1) = none →
       (∀ c : Int, 1 ≤ c → c ≤ g.boardD.width - 1 →
          g.boardD.getItem (g.boardD.height - 1) c ≠ some 'n') ∧
       (Game.helpPlayer o g).lives = g.lives ∧
       (Game.helpPlayer o g).board = g.board) := by
  have hb1 : ({ g with player := { g.player with x := 0, y := g.boardD.height - 1 } }
      : Game).boardD = g.boardD := rfl
  have hlen : itemsAssist.length = 6 := by decide
  have hitem : intGetD itemsAssist (randomInt (o 0) 0 ((itemsAssist.length : Int) - 1)) 'n'
      ∈ itemsAssist := by
    obtain ⟨hlo, hhi⟩ := randomInt_mem (o 0) 0 ((itemsAssist.length : Int) - 1) h0 h1
      (by omega)
    exact intGetD_mem _ _ _ hlo (by omega)
  unfold Game.helpPlayer
  rw [if_pos hl]
  simp only [hb1]
  cases hfind : findFreeCol g.boardD (g.boardD.height - 1) with
  | some col =>
    obtain ⟨hc1, hc2, hc3, hc4⟩ :=
      (goFindFree_spec g.boardD (g.boardD.height - 1) (g.boardD.width - 1).toNat).1 col hfind
    refine ⟨rfl, rfl, ?_, ?_⟩
    · intro col' hcol'
      obtain rfl : col = col' := by simpa using hcol'
      refine ⟨hc1, by omega, hc3, fun c hca hcb => hc4 c hca (by omega), by simp, ?_⟩
      exact ⟨_, hitem, by simp⟩
    · intro hnone
      simp at hnone
  | none =>
    have hmiss :=
      (goFindFree_spec g.boardD (g.boardD.height - 1) (g.boardD.width - 1).toNat).2 hfind
    refine ⟨rfl, rfl, ?_, ?_⟩
    · intro col' hcol'
      simp at hcol'
    · intro hn
      exact ⟨fun c hca hcb => hmiss c hca (by omega), by simp, by simp⟩

/-- C1 counterexample: on a board whose bottom row has no empty cell in
columns `width-1 .. 1`, `helpPlayer` with 3 lives leaves the lives at 3
(and the board untouched), while the claim demands the life cost also in
this case. -/
theorem helpPlayer_no_cell_no_cost :
    c1Game.lives = 3 ∧
    (Game.helpPlayer oZero c1Game).lives = 3 ∧
    (Game.helpPlayer oZero c1Game).board = c1Game.board ∧
    ¬((3 : Int) = 3 - 1) := by
  decide

/-- C1 witness: on the freshly constructed first-level board the scan
finds column 4 free, so a life is deducted and the player lands on the
bottom-left tile. -/
theorem helpPlayer_spec_witness :
    (Game.helpPlayer oZero (Game.newApp oZero)).player.x = 0 ∧
    (Game.helpPlayer oZero (Game.newApp oZero)).lives = (Game.newApp oZero).lives - 1 := by
  have h := helpPlayer_spec oZero (Game.newApp oZero) (by decide) (by decide) (by decide)
  exact ⟨h.1, (h.2.2.1 4 (by decide)).2.2.2.2.1⟩

/-- C4: `Enemy.update(dt)` adds `speed * dt` to the abscissa; when the
result passes the board width the enemy wraps to `x = -1` with a row
drawn from the board's roads and an integer speed drawn from the
inclusive `[minEnemySpeed, maxEnemySpeed]` range; otherwise the row and
the speed are untouched. -/
theorem enemy_update_spec (o : Nat → ℚ) (dt : ℚ) (g : Game) (e : Enemy)
    (hr : g.boardD.roads ≠ []) (hs : g.minEnemySpeed ≤ g.maxEnemySpeed)
    (ho0 : 0 ≤ o 0) (ho1 : o 0 < 1) (hp0 : 0 ≤ o 1) (hp1 : o 1 < 1) :
    (((g.boardD.width : ℚ)) ≤ e.x + e.speed * dt →
       (Enemy.update o dt g e).x = -1 ∧
       (Enemy.update o dt g e).y ∈ g.boardD.roads ∧
       ∃ s : Int, (Enemy.update o dt g e).speed = (s : ℚ) ∧
         g.minEnemySpeed ≤ s ∧ s ≤ g.maxEnemySpeed) ∧
    (e.x + e.speed * dt < ((g.boardD.width : ℚ)) →
       Enemy.update o dt g e = { e with x := e.x + e.speed * dt }) := by
  constructor
  · intro hwrap
    have hlen : 0 < g.boardD.roads.length := List.length_pos.mpr hr
    obtain ⟨hy0, hy1⟩ := randomInt_mem (o 0) 0 ((g.boardD.roads.length : Int) - 1) ho0 ho1
      (by omega)
    obtain ⟨hs0, hs1⟩ := randomInt_mem (o 1) g.minEnemySpeed g.maxEnemySpeed hp0 hp1 hs
    unfold Enemy.update
    rw [if_pos hwrap]
    refine ⟨rfl, ?_, ⟨randomInt (o 1) g.minEnemySpeed g.maxEnemySpeed, rfl, hs0, hs1⟩⟩
    exact intGetD_mem _ _ _ hy0 (by omega)
  · intro hstay
    unfold Enemy.update
    rw [if_neg (by exact not_le.mpr hstay)]

/-- C4 witness: with `x = 4`, `speed = 2`, `dt = 1` on a width-5 board
the enemy wraps to `x = -1` and lands on one of the board's roads. -/
theorem enemy_update_spec_witness :
    (Enemy.update oZero 1 c4Game c4Enemy).x = -1 ∧
    (Enemy.update oZero 1 c4Game c4Enemy).y ∈ c4Game.boardD.roads := by
  have hw : c4Game.boardD.width = 5 := by decide
  have hx : ((c4Game.boardD.width : ℚ)) ≤ c4Enemy.x + c4Enemy.speed * 1 := by
    rw [hw]
    simp [c4Enemy]
    norm_num
  have h := (enemy_update_spec oZero 1 c4Game c4Enemy (by decide) (by decide)
    (by decide) (by decide) (by decide) (by decide)).1 hx
  exact ⟨h.1, h.2.1⟩

/-- Unfolding `moveToGen` when the game is not paused. -/
theorem moveToGen_unpaused (cb : Char → Option (Game → Game)) (x y : Int) (g : Game)
    (hp : g.paused = false) :
    moveToGen cb x y g =
      if g.boardD.getItem y x = some 'n' then posSet x y g
      else { afterGain cb (g.boardD.getItem y x) (posSet x y g) with
             board := some ((afterGain cb (g.boardD.getItem y x) (posSet x y g)).boardD.removeItem y x) } := by
  unfold moveToGen posSet afterGain
  rw [if_neg (by simp [hp])]
  rfl

/-- C5: `moveTo` is a no-op while paused; when not paused it sets the
position, and at a destination holding `Item.None` nothing else
changes; at a destination holding any other item it invokes the
registered callback (if any — `afterGain` applies `cb`'s entry when
present and is the identity otherwise) on the position-updated state and
then removes the item from the resulting board; removing makes the cell
read back `Item.None` whenever its row-major index is in range of the
items layer. -/
theorem moveTo_spec (cb : Char → Option (Game → Game)) (x y : Int) (g : Game) :
    (g.paused = true → moveToGen cb x y g = g) ∧
    (g.paused = false → g.boardD.getItem y x = some 'n' →
       moveToGen cb x y g = posSet x y g) ∧
    (g.paused = false → ∀ c : Char, c ≠ 'n' → g.boardD.getItem y x = some c →
       moveToGen cb x y g =
         { afterGain cb (some c) (posSet x y g) with
           board := some ((afterGain cb (some c) (posSet x y g)).boardD.removeItem y x) }) ∧
    (∀ b : Board, 0 ≤ y * b.width + x →
       (y * b.width + x).toNat < (materializedItems b).length →
       (b.removeItem y x).getItem y x = some 'n') ∧
    (∀ o : Nat → ℚ, Player.moveTo o x y g = moveToGen (gainCallbacks o) x y g) := by
  refine ⟨?_, ?_, ?_, ?_, fun _ => rfl⟩
  · intro hp
    unfold moveToGen
    rw [if_pos hp]
  · intro hp hit
    rw [moveToGen_unpaused cb x y g hp, if_pos hit]
  · intro hp c hcn hit
    rw [moveToGen_unpaused cb x y g hp, if_neg (by rw [hit]; simp [hcn]), hit]
  · intro b h0 hlen
    exact getItem_setItem_self b y x 'n' h0 hlen

/-- C5 witness: a move command delivered to a paused game is dropped
entirely. -/
theorem moveTo_spec_witness :
    moveToGen (gainCallbacks oZero) 1 1 c5Paused = c5Paused :=
  (moveTo_spec (gainCallbacks oZero) 1 1 c5Paused).1 rfl

/-- A `levelUp` arriving exactly at the level count only fires the
completed event: board, enemies, lives and speed bounds are untouched. -/
theorem levelUp_at_last (o : Nat → ℚ) (g : Game)
    (h : g.level + 1 = (gameLevels.length : Int)) :
    Game.levelUp o g = { g with level := g.level + 1, log := g.log ++ [GEvent.completed] } := by
  unfold Game.levelUp
  rw [if_pos h]

/-- A `levelUp` past the level count only increments the counter. -/
theorem levelUp_past_last (o : Nat → ℚ) (g : Game)
    (h : (gameLevels.length : Int) < g.level + 1) :
    Game.levelUp o g = { g with level := g.level + 1 } := by
  unfold Game.levelUp
  rw [if_neg (by omega), if_neg (by omega)]

/-- The events fired by a level-installing `levelUp` call: life gained,
then level cleared. -/
theorem levelUp_install_log (o : Nat → ℚ) (g : Game)
    (h : g.level + 1 < (gameLevels.length : Int)) :
    (Game.levelUp o g).log
      = (g.log ++ [GEvent.lifeGained g.maxLives]) ++ [GEvent.levelCleared (g.level + 1)] := by
  unfold Game.levelUp
  rw [if_neg (by omega), if_pos h]

/-- Every `levelUp` branch increments the level counter. -/
theorem levelUp_level (o : Nat → ℚ) (g : Game) :
    (Game.levelUp o g).level = g.level + 1 := by
  rcases lt_trichotomy (g.level + 1) ((gameLevels.length : Int)) with h | h | h
  · unfold Game.levelUp
    rw [if_neg (by omega), if_pos h]
  · rw [levelUp_at_last o g h]
  · rw [levelUp_past_last o g h]

/-- One `levelUp` call adds one completed event exactly when it lands on
the level count. -/
theorem levelUp_completed_count (o : Nat → ℚ) (g : Game) :
    countEv GEvent.completed (Game.levelUp o g).log
      = countEv GEvent.completed g.log
        + (if g.level + 1 = (gameLevels.length : Int) then 1 else 0) := by
  rcases lt_trichotomy (g.level + 1) ((gameLevels.length : Int)) with h | h | h
  · rw [levelUp_install_log o g h, countEv_append, countEv_append, if_neg (by omega)]
    simp [countEv]
  · rw [levelUp_at_last o g h]
    simp [countEv, List.filter_append, h]
  · rw [levelUp_past_last o g h, if_neg (by omega)]
    simp

/-- Iterated `levelUp` advances the level by the iteration count. -/
theorem iterLevelUp_level (n : Nat) : ∀ (O : Nat → Nat → ℚ) (g : Game),
    (iterLevelUp O n g).level = g.level + n := by
  induction n with
  | zero => intro O g; simp [iterLevelUp]
  | succ n ih =>
    intro O g
    rw [iterLevelUp, ih, levelUp_level]
    push_cast
    ring

/-- Iterated `levelUp` fires the completed event exactly once when the
iteration range crosses the level count, and never otherwise. -/
theorem iterLevelUp_completed_count (n : Nat) : ∀ (O : Nat → Nat → ℚ) (g : Game),
    countEv GEvent.completed (iterLevelUp O n g).log
      = countEv GEvent.completed g.log
        + (if g.level + 1 ≤ (gameLevels.length : Int) ∧ (gameLevels.length : Int) ≤ g.level + n
           then 1 else 0) := by
  induction n with
  | zero =>
    intro O g
    rw [iterLevelUp]
    split_ifs with h
    · omega
    · omega
  | succ n ih =>
    intro O g
    rw [iterLevelUp, ih, levelUp_completed_count, levelUp_level]
    push_cast
    split_ifs <;> omega

/-- C9: a `levelUp` whose incremented level reaches the level count
fires the completed event and performs no board or enemy setup; from a
freshly constructed game, ten further `levelUp` calls fire completed
exactly once, and every call after that point leaves the board and the
enemy list untouched. -/
theorem levelUp_terminal :
    (∀ (o : Nat → ℚ) (g : Game), g.level + 1 = (gameLevels.length : Int) →
       Game.levelUp o g = { g with level := g.level + 1, log := g.log ++ [GEvent.completed] }) ∧
    (∀ (O : Nat → Nat → ℚ) (o : Nat → ℚ),
       countEv GEvent.completed (iterLevelUp O 10 (Game.newApp o)).log = 1) ∧
    (∀ (O : Nat → Nat → ℚ) (o oL : Nat → ℚ) (k : Nat),
       (Game.levelUp oL (iterLevelUp O (10 + k) (Game.newApp o))).board
         = (iterLevelUp O (10 + k) (Game.newApp o)).board ∧
       (Game.levelUp oL (iterLevelUp O (10 + k) (Game.newApp o))).enemies
         = (iterLevelUp O (10 + k) (Game.newApp o)).enemies) := by
  have hfresh : ∀ o : Nat → ℚ, (Game.newApp o).level = 0 := by
    intro o
    unfold Game.newApp
    rw [levelUp_level]
    decide
  have hfreshcount : ∀ o : Nat → ℚ, countEv GEvent.completed (Game.newApp o).log = 0 := by
    intro o
    unfold Game.newApp
    rw [levelUp_completed_count]
    norm_num [appGameInit, countEv, gameLevels_length]
  refine ⟨fun o g h => levelUp_at_last o g h, ?_, ?_⟩
  · intro O o
    rw [iterLevelUp_completed_count, hfreshcount, hfresh, gameLevels_length]
    norm_num
  · intro O o oL k
    have hlv : (iterLevelUp O (10 + k) (Game.newApp o)).level = 10 + k := by
      rw [iterLevelUp_level, hfresh]
      push_cast
      ring
    have h10 : (gameLevels.length : Int) < (iterLevelUp O (10 + k) (Game.newApp o)).level + 1 := by
      rw [hlv, gameLevels_length]
      omega
    rw [levelUp_past_last _ _ h10]
    exact ⟨rfl, rfl⟩

/-- C9 witness: from level 9 the next `levelUp` fires the completed
event and changes nothing but the level counter. -/
theorem levelUp_terminal_witness :
    Game.levelUp oZero c9Game
      = { c9Game with level := 10, log := c9Game.log ++ [GEvent.completed] } :=
  levelUp_terminal.1 oZero c9Game (by decide)

/-- The zero oracle satisfies the `Math.random()` contract. -/
theorem oracleOK_oZero : OracleOK oZero := by
  intro n
  refine ⟨le_refl 0, ?_⟩
  show (0 : ℚ) < 1
  decide

/-- Every one of the ten authored boards has positive width and
height. -/
theorem levelBoards_pos (lv : Int) (h0 : 0 ≤ lv) (h10 : lv < 10) :
    1 ≤ (Board.ofDesc (intGetD gameLevels lv [])).width ∧
    1 ≤ (Board.ofDesc (intGetD gameLevels lv [])).height := by
  interval_cases lv <;> exact ⟨by decide, by decide⟩

/-- The call `setBlock` never changes the board geometry. -/
theorem setBlock_dims (b : Board) (r c : Int) (k : Char) :
    (b.setBlock r c k).width = b.width ∧ (b.setBlock r c k).height = b.height :=
  ⟨rfl, rfl⟩

/-- A fold of geometry-preserving steps preserves the geometry. -/
theorem foldl_dims {α : Type} (f : Board → α → Board)
    (hf : ∀ b a, (f b a).width = b.width ∧ (f b a).height = b.height) :
    ∀ (l : List α) (b : Board),
      (l.foldl f b).width = b.width ∧ (l.foldl f b).height = b.height
  | [], _ => ⟨rfl, rfl⟩
  | a :: l, b => by
    rw [List.foldl_cons]
    obtain ⟨h1, h2⟩ := foldl_dims f hf l (f b a)
    obtain ⟨h3, h4⟩ := hf b a
    exact ⟨h1.trans h3, h2.trans h4⟩

/-- The rock item's water-to-stone sweep preserves the board
geometry. -/
theorem waterToStone_dims (b : Board) :
    (waterToStone b).width = b.width ∧ (waterToStone b).height = b.height := by
  unfold waterToStone
  apply foldl_dims
  intro b1 r
  apply foldl_dims
  intro b2 c
  split_ifs <;> exact ⟨rfl, rfl⟩

/-- Swapping in a board of the same geometry preserves the bounds
invariant. -/
theorem inbounds_board_swap (g : Game) (b : Board) (h : InBoundsGame g)
    (hw : b.width = g.boardD.width) (hh : b.height = g.boardD.height) :
    InBoundsGame { g with board := some b } := by
  obtain ⟨hp, hl, hx0, hx1, hy0, hy1⟩ := h
  refine ⟨hp, hl, hx0, ?_, hy0, ?_⟩
  · show g.player.x ≤ b.width - 1
    rw [hw]
    exact hx1
  · show g.player.y ≤ b.height - 1
    rw [hh]
    exact hy1

/-- A `levelUp` call from a well-formed state, with its random draws in
`[0, 1)`, leaves the game well-formed: the terminal branches keep the
board and the player, and the install branch respawns the player inside
the freshly parsed board. -/
theorem levelUp_inbounds (o : Nat → ℚ) (g : Game) (hO : OracleOK o)
    (h : InBoundsGame g) : InBoundsGame (Game.levelUp o g) := by
  obtain ⟨hp, hl, hx0, hx1, hy0, hy1⟩ := h
  have hL : gameLevels.length = 10 := gameLevels_length
  rcases lt_trichotomy (g.level + 1) ((gameLevels.length : Int)) with hc | hc | hc
  · obtain ⟨hw, hh⟩ := levelBoards_pos (g.level + 1) (by omega) (by omega)
    unfold Game.levelUp
    rw [if_neg (by omega), if_pos hc]
    refine ⟨hp, ?_, ?_, ?_, ?_, ?_⟩
    · show -1 ≤ g.level + 1
      omega
    · show (0 : Int) ≤ randomInt (o 0) 0
        ((Board.ofDesc (intGetD gameLevels (g.level + 1) [])).width - 1)
      exact (randomInt_mem (o 0) 0
        ((Board.ofDesc (intGetD gameLevels (g.level + 1) [])).width - 1)
        (hO 0).1 (hO 0).2 (by omega)).1
    · show randomInt (o 0) 0
          ((Board.ofDesc (intGetD gameLevels (g.level + 1) [])).width - 1)
        ≤ (Board.ofDesc (intGetD gameLevels (g.level + 1) [])).width - 1
      exact (randomInt_mem (o 0) 0
        ((Board.ofDesc (intGetD gameLevels (g.level + 1) [])).width - 1)
        (hO 0).1 (hO 0).2 (by omega)).2
    · show (0 : Int) ≤ (Board.ofDesc (intGetD gameLevels (g.level + 1) [])).height - 1
      omega
    · show (Board.ofDesc (intGetD gameLevels (g.level + 1) [])).height - 1
        ≤ (Board.ofDesc (intGetD gameLevels (g.level + 1) [])).height - 1
      omega
  · rw [levelUp_at_last o g hc]
    refine ⟨hp, ?_, hx0, hx1, hy0, hy1⟩
    show -1 ≤ g.level + 1
    omega
  · rw [levelUp_past_last o g hc]
    refine ⟨hp, ?_, hx0, hx1, hy0, hy1⟩
    show -1 ≤ g.level + 1
    omega

/-- The heart handler changes only the lives and the log. -/
theorem heartGain_inbounds (g : Game) (h : InBoundsGame g) :
    InBoundsGame (heartGain g) := by
  obtain ⟨hp, hl, hx0, hx1, hy0, hy1⟩ := h
  unfold heartGain InBoundsGame Game.boardD
  simp only []
  exact ⟨hp, hl, hx0, hx1, hy0, hy1⟩

/-- The star handler changes only the indestructibility flag and the
sprite. -/
theorem starGain_inbounds (g : Game) (h : InBoundsGame g) :
    InBoundsGame (starGain g) := by
  obtain ⟨hp, hl, hx0, hx1, hy0, hy1⟩ := h
  unfold starGain
  split_ifs with hst
  · exact ⟨hp, hl, hx0, hx1, hy0, hy1⟩
  · unfold InBoundsGame Game.boardD
    simp only []
    exact ⟨hp, hl, hx0, hx1, hy0, hy1⟩

/-- The blue-gem handler changes only the enemy speeds. -/
theorem blueGemGain_inbounds (g : Game) (h : InBoundsGame g) :
    InBoundsGame (blueGemGain g) := by
  obtain ⟨hp, hl, hx0, hx1, hy0, hy1⟩ := h
  unfold blueGemGain InBoundsGame Game.boardD
  simp only []
  exact ⟨hp, hl, hx0, hx1, hy0, hy1⟩

/-- The green-gem handler changes only the enemy speeds. -/
theorem greenGemGain_inbounds (g : Game) (h : InBoundsGame g) :
    InBoundsGame (greenGemGain g) := by
  obtain ⟨hp, hl, hx0, hx1, hy0, hy1⟩ := h
  unfold greenGemGain InBoundsGame Game.boardD
  simp only []
  exact ⟨hp, hl, hx0, hx1, hy0, hy1⟩

/-- Every installed gain callback leaves the game well-formed. -/
theorem afterGain_inbounds (o : Nat → ℚ) (item : Option Char) (g : Game)
    (hO : OracleOK o) (h : InBoundsGame g) :
    InBoundsGame (afterGain (gainCallbacks o) item g) := by
  cases item with
  | none => exact h
  | some c =>
    show InBoundsGame (match gainCallbacks o c with | some f => f g | none => g)
    unfold gainCallbacks
    by_cases h1 : c = 'h'
    · rw [if_pos h1]
      exact heartGain_inbounds g h
    rw [if_neg h1]
    by_cases h2 : c = 's'
    · rw [if_pos h2]
      exact starGain_inbounds g h
    rw [if_neg h2]
    by_cases h3 : c = 'k'
    · rw [if_pos h3]
      exact levelUp_inbounds o g hO h
    rw [if_neg h3]
    by_cases h4 : c = 'r'
    · rw [if_pos h4]
      exact inbounds_board_swap g (waterToStone g.boardD) h
        (waterToStone_dims g.boardD).1 (waterToStone_dims g.boardD).2
    rw [if_neg h4]
    by_cases h5 : c = 'b'
    · rw [if_pos h5]
      exact blueGemGain_inbounds g h
    rw [if_neg h5]
    by_cases h6 : c = 'g'
    · rw [if_pos h6]
      exact greenGemGain_inbounds g h
    rw [if_neg h6]
    by_cases h7 : c = 'o'
    · rw [if_pos h7]
      exact h
    rw [if_neg h7]
    exact h

/-- A `moveTo` whose destination is inside the board keeps the game
well-formed. -/
theorem moveTo_inbounds (o : Nat → ℚ) (x y : Int) (g : Game) (hO : OracleOK o)
    (hg : InBoundsGame g) (hx0 : 0 ≤ x) (hx1 : x ≤ g.boardD.width - 1)
    (hy0 : 0 ≤ y) (hy1 : y ≤ g.boardD.height - 1) :
    InBoundsGame (Player.moveTo o x y g) := by
  obtain ⟨hp, hl, _, _, _, _⟩ := hg
  have h1 : InBoundsGame (posSet x y g) := ⟨hp, hl, hx0, hx1, hy0, hy1⟩
  rw [show Player.moveTo o x y g = moveToGen (gainCallbacks o) x y g from rfl,
    moveToGen_unpaused _ x y g hp]
  split_ifs with hit
  · exact h1
  · exact inbounds_board_swap _ _
      (afterGain_inbounds o (g.boardD.getItem y x) (posSet x y g) hO h1) rfl rfl

/-- A directional input on a well-formed game keeps it well-formed: the
edge guards drop moves that would leave the board, and accepted moves
land inside it. -/
theorem handleInput_dir_inbounds (o : Nat → ℚ) (key : String) (g : Game)
    (hO : OracleOK o) (h : InBoundsGame g)
    (hkey : key = "left" ∨ key = "up" ∨ key = "right" ∨ key = "down") :
    InBoundsGame (Player.handleInput o key g) := by
  obtain ⟨hp, hl, hx0, hx1, hy0, hy1⟩ := h
  have h' : InBoundsGame g := ⟨hp, hl, hx0, hx1, hy0, hy1⟩
  rcases hkey with rfl | rfl | rfl | rfl
  · unfold Player.handleInput
    rw [if_pos rfl]
    split_ifs with hm
    · exact moveTo_inbounds o _ _ g hO h' (by omega) (by omega) hy0 hy1
    · exact h'
  · unfold Player.handleInput
    rw [if_neg (by decide), if_pos rfl]
    split_ifs with hm
    · exact moveTo_inbounds o _ _ g hO h' hx0 hx1 (by omega) (by omega)
    · exact h'
  · unfold Player.handleInput
    rw [if_neg (by decide), if_neg (by decide), if_pos rfl]
    split_ifs with hm
    · exact moveTo_inbounds o _ _ g hO h' (by omega) (by omega) hy0 hy1
    · exact h'
  · unfold Player.handleInput
    rw [if_neg (by decide), if_neg (by decide), if_neg (by decide), if_pos rfl]
    split_ifs with hm
    · exact moveTo_inbounds o _ _ g hO h' hx0 hx1 (by omega) (by omega)
    · exact h'

/-- Delivering any sequence of directional inputs preserves the bounds
invariant. -/
theorem deliverInputs_inbounds :
    ∀ (inputs : List (String × (Nat → ℚ))) (g : Game), InBoundsGame g →
      (∀ p ∈ inputs,
        (p.1 = "left" ∨ p.1 = "up" ∨ p.1 = "right" ∨ p.1 = "down") ∧ OracleOK p.2) →
      InBoundsGame (deliverInputs inputs g)
  | [], _, hg, _ => hg
  | (k, o) :: rest, g, hg, hin => by
    rw [deliverInputs]
    exact deliverInputs_inbounds rest (Player.handleInput o k g)
      (handleInput_dir_inbounds o k g (hin (k, o) (List.mem_cons_self _ _)).2 hg
        (hin (k, o) (List.mem_cons_self _ _)).1)
      (fun q hq => hin q (List.mem_cons_of_mem _ hq))

/-- C10: from an unpaused well-formed game (player inside the board,
level at least `-1`) every finite sequence of directional inputs, each
with its random draws in `[0, 1)`, keeps the player's position inside
the board; a directional input at the corresponding board edge is
dropped entirely. -/
theorem player_stays_on_board (g : Game) (inputs : List (String × (Nat → ℚ)))
    (hg : InBoundsGame g)
    (hin : ∀ p ∈ inputs,
      (p.1 = "left" ∨ p.1 = "up" ∨ p.1 = "right" ∨ p.1 = "down") ∧ OracleOK p.2) :
    InBoundsGame (deliverInputs inputs g) ∧
    (∀ o : Nat → ℚ, g.player.x = 0 → Player.handleInput o "left" g = g) ∧
    (∀ o : Nat → ℚ, g.player.x = g.boardD.width - 1 → Player.handleInput o "right" g = g) ∧
    (∀ o : Nat → ℚ, g.player.y = 0 → Player.handleInput o "up" g = g) ∧
    (∀ o : Nat → ℚ, g.player.y = g.boardD.height - 1 → Player.handleInput o "down" g = g) := by
  refine ⟨deliverInputs_inbounds inputs g hg hin, ?_, ?_, ?_, ?_⟩
  · intro o hx
    unfold Player.handleInput
    rw [if_pos rfl, if_neg (by omega)]
  · intro o hx
    unfold Player.handleInput
    rw [if_neg (by decide), if_neg (by decide), if_pos rfl, if_neg (by omega)]
  · intro o hy
    unfold Player.handleInput
    rw [if_neg (by decide), if_pos rfl, if_neg (by omega)]
  · intro o hy
    unfold Player.handleInput
    rw [if_neg (by decide), if_neg (by decide), if_neg (by decide), if_pos rfl,
      if_neg (by omega)]

/-- C10 witness: two directional inputs on the freshly constructed game
keep the player on the board. -/
theorem player_stays_on_board_witness :
    InBoundsGame (deliverInputs [("right", oZero), ("up", oZero)] (Game.newApp oZero)) :=
  (player_stays_on_board (Game.newApp oZero) [("right", oZero), ("up", oZero)]
    (by decide)
    (fun p hp => by
      simp only [List.mem_cons, List.mem_singleton, List.not_mem_nil, or_false] at hp
      rcases hp with rfl | rfl
      · exact ⟨by decide, oracleOK_oZero⟩
      · exact ⟨by decide, oracleOK_oZero⟩)).1
